import Mathlib

/-!
Shallow embedding of the knowledge-management-system (kms) core:
the markdown parser (app/kb/parser.py), the ingestion pipeline
(app/kb/ingestion.py) with its sqlite-backed state store
(app/kb/indexing.py), the knowledge graph (app/kb/graph.py) and the
hybrid retriever (app/kb/retrieval.py).  Python strings are modelled as
Lean String / List Char, floats as rationals, dictionaries as
association lists that preserve Python dict insertion order.
-/

namespace KMS

/- ### Python string helpers -/

/-- Characters removed by Python str.strip (ASCII whitespace). -/
def pyWhite (c : Char) : Bool :=
  c = ' ' || c = '\t' || c = '\n' || c = '\r' || c = '\x0b' || c = '\x0c'

/-- Python str.strip on a character list. -/
def pyStripList (cs : List Char) : List Char :=
  ((cs.dropWhile pyWhite).reverse.dropWhile pyWhite).reverse

/-- Python str.strip. -/
def pyStrip (s : String) : String := ⟨pyStripList s.data⟩

/-- Python str.lower (ASCII case folding suffices for this code base). -/
def pyLower (s : String) : String := ⟨s.data.map Char.toLower⟩

/-- Python s[:n] on a string. -/
def pyTake (n : Nat) (s : String) : String := ⟨s.data.take n⟩

/-- Split a character list at newline characters, mirroring the line
structure that a MULTILINE regex scan sees: the pattern of
SECTION_PATTERN can only ever match inside a single line because dot
does not match a newline and the anchors sit at line boundaries. -/
def splitLines : List Char → List (List Char)
  | [] => [[]]
  | c :: rest =>
    let ls := splitLines rest
    if c = '\n' then [] :: ls
    else
      match ls with
      | [] => [[c]]
      | l :: ls2 => (c :: l) :: ls2

/-- Rejoin lines with newline characters (inverse of splitLines). -/
def joinLines (ls : List (List Char)) : List Char :=
  (ls.intersperse ['\n']).flatten

/-- Python s.replace(" ", "_"): with a one-character pattern this is a
character-wise substitution. -/
def underscoreSpaces (s : String) : String :=
  ⟨s.data.map (fun c => if c = ' ' then '_' else c)⟩

/- ### app/kb/parser.py -/

/-- One line matches SECTION_PATTERN = re.compile(r"^(#+)\\s+(.+)$",
re.MULTILINE).  Inside the RAW string the two backslashes denote a
regex-escaped literal backslash, so the pattern is: one or more '#',
then one literal backslash character, then one or more literal 's'
characters, then at least one further character up to the end of the
line (the 's'-run may donate its last character to the final group
when nothing else follows). -/
def headingMatch (l : List Char) : Bool :=
  let hs := l.takeWhile (· = '#')
  let r1 := l.dropWhile (· = '#')
  !hs.isEmpty &&
    match r1 with
    | '\\' :: r2 =>
      let ss := r2.takeWhile (· = 's')
      let r3 := r2.dropWhile (· = 's')
      !ss.isEmpty && (2 ≤ ss.length || !r3.isEmpty)
    | _ => false

/-- Group 2 of a SECTION_PATTERN match: the backtracking of the greedy
's'-run leaves either everything after the 's'-run or, when the line
ends in the run, its final 's'. -/
def headingGroup2 (l : List Char) : List Char :=
  let r1 := l.dropWhile (· = '#')
  match r1 with
  | _ :: r2 =>
    let r3 := r2.dropWhile (· = 's')
    if r3.isEmpty then ['s'] else r3
  | [] => []

/-- Python dict assignment d[k] = v: overwrite in place, append new keys. -/
def dictInsert (d : List (String × String)) (k v : String) : List (String × String) :=
  if d.any (fun p => p.1 == k) then
    d.map (fun p => if p.1 == k then (k, v) else p)
  else d ++ [(k, v)]

/-- Section key of a matching heading line: group(2).strip().lower()
(the source lowercases twice, which is idempotent). -/
def headingKey (l : List Char) : String :=
  pyLower (pyStrip ⟨headingGroup2 l⟩)

/-- Loop body of parse_sections: walk the lines, start a new section at
each matching line, and give each section the stripped text between its
heading and the next heading (or the end of the body). -/
def buildSections (acc : List (String × String)) (cur : Option (String × List (List Char))) :
    List (List Char) → List (String × String)
  | [] =>
    match cur with
    | none => acc
    | some (k, ls) => dictInsert acc k (pyStrip ⟨joinLines ls⟩)
  | l :: rest =>
    if headingMatch l then
      let acc2 :=
        match cur with
        | none => acc
        | some (k, ls) => dictInsert acc k (pyStrip ⟨joinLines ls⟩)
      buildSections acc2 (some (headingKey l, [])) rest
    else
      match cur with
      | none => buildSections acc none rest
      | some (k, ls) => buildSections acc (some (k, ls ++ [l])) rest

/-- parse_sections (app/kb/parser.py lines 26-41): if no line matches
SECTION_PATTERN the whole stripped body becomes the single "body"
section, otherwise one section per matching heading line. -/
def parseSections (body : String) : List (String × String) :=
  let lines := splitLines body.data
  if lines.all (fun l => !headingMatch l) then [("body", pyStrip body)]
  else buildSections [] none lines

/-- Lookup in a parsed sections dictionary (Python sections.get(k)). -/
def sectionsGet (secs : List (String × String)) (k : String) : Option String :=
  (secs.find? (fun p => p.1 == k)).map (·.2)

/-- First truthy candidate of derive_summary: Python treats None and
the empty string as falsy. -/
def firstTruthy : List (Option String) → Option String
  | [] => none
  | none :: rest => firstTruthy rest
  | some s :: rest => if s.isEmpty then firstTruthy rest else some s

/-- derive_summary (app/kb/parser.py lines 44-52): first non-empty of
the "summary" section, the "overview" section, the "body" section and
the raw body, stripped and cut to 280 characters; empty string if all
candidates are empty. -/
def deriveSummary (secs : List (String × String)) (body : String) : String :=
  match firstTruthy [sectionsGet secs "summary", sectionsGet secs "overview",
      sectionsGet secs "body", some body] with
  | some c => pyTake 280 (pyStrip c)
  | none => ""

/-- Summary assignment in parse_file (app/kb/parser.py line 109):
metadata.get("summary") or derive_summary(sections, body).  A present
non-empty front-matter summary is used verbatim. -/
def summaryOf (explicit : Option String) (secs : List (String × String)) (body : String) : String :=
  match explicit with
  | some s => if s.isEmpty then deriveSummary secs body else s
  | none => deriveSummary secs body

/-- settings.confidence_levels (app/core/config.py line 116). -/
def confidenceLevels : List String := ["low", "medium", "high"]

/-- Confidence handling in parse_file (app/kb/parser.py lines 103-106):
metadata.get("confidence", "medium"), coerced to "low" when the value
is not one of the configured levels. -/
def parseConfidence (meta : Option String) : String :=
  let c := meta.getD "medium"
  if confidenceLevels.contains c then c else "low"

/- ### chunk_unit (app/kb/parser.py lines 139-202) -/

/-- The while loop of chunk_unit over one section text, with explicit
fuel standing in for the number of loop iterations: none means the
given fuel did not reach the end of the loop.  Each window is
text[start:end] with end = min(len(text), start + chunk_size); after a
window that did not reach the end of the text the loop continues at
max(0, end - overlap), which is Nat subtraction end - overlap here. -/
def chunkWindows (chunkSize overlap : Nat) (text : List Char) : Nat → Nat → Option (List (List Char))
  | 0, _ => none
  | fuel + 1, start =>
    if start < text.length then
      let e := min text.length (start + chunkSize)
      let piece := (text.drop start).take (e - start)
      if e = text.length then some [piece]
      else
        match chunkWindows chunkSize overlap text fuel (e - overlap) with
        | none => none
        | some rest => some (piece :: rest)
    else some []

/-- The while loop of chunk_unit never terminates on this input: for
every amount of fuel the loop is still running. -/
def chunkWindowsDiverge (chunkSize overlap : Nat) (text : List Char) : Prop :=
  ∀ fuel, chunkWindows chunkSize overlap text fuel 0 = none

/-- The slice of a parsed unit that chunk_unit consumes. -/
structure UnitSections where
  id : String
  sections : List (String × String)
  body : String
deriving DecidableEq, Repr

/-- The section loop of chunk_unit: skip empty section texts, chunk
the rest in order, emitting (chunk_id, chunk_text) pairs with ids
unit.id : section-name-with-spaces-underscored : window-index.  The
fuel text.length + 1 is enough for every terminating run of the inner
while loop (see the termination theorem); none models the infinite
loop. -/
def chunkSections (uId : String) (chunkSize overlap : Nat) :
    List (String × String) → Option (List (String × String))
  | [] => some []
  | p :: rest =>
    if p.2.isEmpty then chunkSections uId chunkSize overlap rest
    else
      match chunkWindows chunkSize overlap p.2.data (p.2.data.length + 1) 0 with
      | none => none
      | some ws =>
        match chunkSections uId chunkSize overlap rest with
        | none => none
        | some more =>
          some (ws.enum.map (fun iw =>
            (uId ++ ":" ++ underscoreSpaces p.1 ++ ":" ++ toString iw.1, (⟨iw.2⟩ : String))) ++
            more)

/-- chunk_unit (app/kb/parser.py lines 139-202): chunk every non-empty
section, then fall back to a single whole-body chunk when no section
produced chunks. -/
def chunkUnit (u : UnitSections) (chunkSize overlap : Nat) : Option (List (String × String)) :=
  match chunkSections u.id chunkSize overlap u.sections with
  | none => none
  | some [] => some [(u.id ++ ":body:0", u.body)]
  | some chs => some chs

/- ### app/kb/indexing.py (StateStore slice used by ingestion)
and app/kb/ingestion.py -/

/-- The part of a parse_file result that the ingestion pass observes:
the unit identity, its repository-relative source path, and its
sections/body (consumed by chunk_unit).  parse_file returning None for
a malformed document is modelled as an Option none in the document
list. -/
structure ParsedUnit where
  id : String
  sourcePath : String
  sections : List (String × String)
  body : String
deriving DecidableEq, Repr

/-- The StateStore tables ingestion reads and writes, projected to the
columns ingestion observes: the files ledger (source_path, file_hash),
the units table (id, source_path) and the chunks table
(chunk_id, knowledge_unit_id).  Contact/relation/system child tables
and the external vector collection are written by ingestion but never
read back by it, so they are not modelled.  All tables have unique
primary keys, maintained by the upsert operations below. -/
structure Store where
  files : List (String × String)
  units : List (String × String)
  chunks : List (String × String)
deriving DecidableEq, Repr

/-- Insert-or-replace into an association list (SQL upsert on the
primary key; position of an existing key is preserved). -/
def upsertAssoc (d : List (String × String)) (k v : String) : List (String × String) :=
  if d.any (fun p => p.1 == k) then
    d.map (fun p => if p.1 == k then (k, v) else p)
  else d ++ [(k, v)]

/-- StateStore.get_file_hash. -/
def getFileHash (st : Store) (p : String) : Option String :=
  (st.files.find? (fun r => r.1 == p)).map (·.2)

/-- StateStore.update_file (ledger upsert). -/
def updateFile (st : Store) (p h : String) : Store :=
  { st with files := upsertAssoc st.files p h }

/-- StateStore.upsert_unit projected to (id, source_path). -/
def upsertUnit (st : Store) (u : ParsedUnit) : Store :=
  { st with units := upsertAssoc st.units u.id u.sourcePath }

/-- StateStore.upsert_chunks over the (chunk_id, knowledge_unit_id)
projection; every chunk of a unit carries the unit id. -/
def upsertChunks (st : Store) (uid : String) (chs : List (String × String)) : Store :=
  { st with chunks := chs.foldl (fun t c => upsertAssoc t c.1 uid) st.chunks }

/-- StateStore.list_known_files. -/
def listKnownFiles (st : Store) : List String := st.files.map (·.1)

/-- StateStore.get_unit_ids_for_source. -/
def unitIdsForSource (st : Store) (p : String) : List String :=
  (st.units.filter (fun r => r.2 == p)).map (·.1)

/-- StateStore.delete_unit (cascades to the unit's chunks; the contact,
relation and system cascades touch tables outside this projection). -/
def deleteUnit (st : Store) (uid : String) : Store :=
  { st with
    chunks := st.chunks.filter (fun c => !(c.2 == uid)),
    units := st.units.filter (fun r => !(r.1 == uid)) }

/-- StateStore.delete_file_record. -/
def deleteFileRecord (st : Store) (p : String) : Store :=
  { st with files := st.files.filter (fun r => !(r.1 == p)) }

/-- The counters dictionary returned by ingest_kb (app/kb/ingestion.py
line 22): its only keys are indexed, skipped, chunks and deleted. -/
structure Counters where
  indexed : Nat
  skipped : Nat
  chunks : Nat
  deleted : Nat
deriving DecidableEq, Repr

/-- The per-document loop of ingest_kb (app/kb/ingestion.py lines
25-47).  A parse failure bumps skipped; an unforced run skips a
document whose content hash equals the ledger hash (same counter);
otherwise the unit is chunked, chunks/unit are upserted, the ledger is
updated and indexed/chunks are bumped.  chunkUnit's fuel is always
sufficient under the configured overlap < chunk_size (getD [] is never
taken then, see the termination theorem). -/
def ingestPass (force : Bool) (chunkSize overlap : Nat) :
    List (Option (ParsedUnit × String)) → Store → Counters → List String →
    Store × Counters × List String
  | [], st, c, processed => (st, c, processed)
  | none :: docs, st, c, processed =>
      ingestPass force chunkSize overlap docs st { c with skipped := c.skipped + 1 } processed
  | some (u, h) :: docs, st, c, processed =>
      let processed2 := processed ++ [u.sourcePath]
      if !force && getFileHash st u.sourcePath == some h then
        ingestPass force chunkSize overlap docs st { c with skipped := c.skipped + 1 } processed2
      else
        let chs := (chunkUnit ⟨u.id, u.sections, u.body⟩ chunkSize overlap).getD []
        let st2 := updateFile (upsertUnit (upsertChunks st u.id chs) u) u.sourcePath h
        ingestPass force chunkSize overlap docs st2
          { c with indexed := c.indexed + 1, chunks := c.chunks + chs.length } processed2

/-- The pruning pass of ingest_kb (lines 48-58): ledger paths not seen
in this enumeration lose all their units (and, per unit, one deleted
count), then their ledger row.  The source iterates the removed set in
sorted path order; the resulting store and counters do not depend on
that order, and the removed set is modelled as the deduplicated list of
known paths outside the processed set. -/
def pruneStep (acc : Store × Nat) (p : String) : Store × Nat :=
  let uids := unitIdsForSource acc.1 p
  let st2 := uids.foldl (fun s uid => deleteUnit s uid) acc.1
  (deleteFileRecord st2 p, acc.2 + uids.length)

/-- The whole pruning pass: delete every removed path with pruneStep. -/
def prunePass (st : Store) (processed : List String) : Store × Nat :=
  let removed := ((listKnownFiles st).dedup).filter (fun p => !processed.contains p)
  removed.foldl pruneStep (st, 0)

/-- ingest_kb (app/kb/ingestion.py lines 15-68): document loop then
pruning pass; returns the final store and the summary counters. -/
def ingest (chunkSize overlap : Nat) (docs : List (Option (ParsedUnit × String)))
    (st : Store) (force : Bool) : Store × Counters :=
  match ingestPass force chunkSize overlap docs st ⟨0, 0, 0, 0⟩ [] with
  | (st1, c1, processed) =>
    match prunePass st1 processed with
    | (st2, d) => (st2, { c1 with deleted := c1.deleted + d })

/-- Source paths of the documents that parse successfully (the paths
that enter processed_paths and the ledger). -/
def parsedPaths (docs : List (Option (ParsedUnit × String))) : List String :=
  docs.filterMap (fun d =>
    match d with
    | some (u, _) => some u.sourcePath
    | none => none)

/-- The two skip conditions of the unforced ingestion loop: parse
failure, or a ledger hash match at the document's source path.  Both
bump the same skipped counter. -/
def skipsDoc (st : Store) (d : Option (ParsedUnit × String)) : Bool :=
  match d with
  | none => true
  | some (u, h) => getFileHash st u.sourcePath == some h

/- ### shared retrieval data model (app/kb/models.py) -/

/-- KnowledgeChunk projected to the fields the retrieval claims
observe (the denormalized metadata snapshot is carried alongside in the
source but never read by the retrieval pipeline under scrutiny). -/
structure KChunk where
  chunkId : String
  unitId : String
  sourcePath : String
  sectionName : String
  text : String
deriving DecidableEq, Repr

/-- RetrievalChunk: a chunk plus stage score, stage rank and stage tag.
Float scores are modelled as exact rationals. -/
structure RetrievalChunk where
  chunk : KChunk
  score : ℚ
  rank : Nat
  source : String
deriving DecidableEq, Repr

/-- Stable sort in descending key order.  Python's sorted(...,
reverse=True) is a stable sort, and any two stable sorts under the
same key produce the same list, so stable insertion sort is a faithful
executable model. -/
def insertDesc {α : Type} (key : α → ℚ) (x : α) : List α → List α
  | [] => [x]
  | y :: ys => if key x < key y then y :: insertDesc key x ys else x :: y :: ys

/-- Stable descending sort (see insertDesc). -/
def sortByDesc {α : Type} (key : α → ℚ) (l : List α) : List α :=
  l.foldr (insertDesc key) []

/-- Maximal runs of characters satisfying keep (regex findall of a
one-class-plus pattern, or str.split on the complement class). -/
def runsOf (keep : Char → Bool) : List Char → List (List Char)
  | [] => []
  | c :: rest =>
    let rs := runsOf keep rest
    if keep c then
      match rest with
      | r :: _ =>
        if keep r then
          match rs with
          | run :: more => (c :: run) :: more
          | [] => [[c]]
        else [c] :: rs
      | [] => [[c]]
    else rs

/-- Character class of TOKEN_PATTERN = re.compile(r"[a-z0-9]+"). -/
def tokenChar (c : Char) : Bool :=
  ('a' ≤ c && c ≤ 'z') || ('0' ≤ c && c ≤ '9')

/-- simple_tokenize (app/kb/retrieval.py lines 25-28): lowercase, then
all [a-z0-9]+ runs in order, duplicates kept. -/
def simpleTokenize (s : String) : List String :=
  (runsOf tokenChar (s.data.map Char.toLower)).map (fun r => (⟨r⟩ : String))

/-- Deduplication keeping the first occurrence of each element
(deterministic stand-in for a Python set built by insertion; no claim
depends on multi-element set iteration order). -/
def dedupKeepFirst : List String → List String
  | [] => []
  | x :: xs => x :: (dedupKeepFirst xs).filter (fun y => !(y == x))

/-- tokenize of app/kb/graph.py lines 41-44: the token set of a text. -/
def tokenizeSet (s : String) : List String :=
  dedupKeepFirst (simpleTokenize s)

/- ### LexicalIndex (app/kb/retrieval.py lines 31-98) -/

/-- The lexical index state after refresh: the store's chunk rows in
table order (self.ids / self.chunks insertion order).  self.bm25 is
None exactly when this list is empty. -/
structure LexIndex where
  chunks : List KChunk
deriving DecidableEq, Repr

/-- LexicalIndex._matches_prefix (lines 66-69): an empty or missing
allow-list admits everything, otherwise the owning unit id must start
with one of the allowed id prefixes. -/
def matchesScope (uid : String) (allowed : List String) : Bool :=
  allowed.isEmpty || allowed.any (fun q => uid.startsWith q)

/-- The sorted, top-N-truncated (chunk, BM25 score) list of
LexicalIndex.search lines 84-86, before the score/scope filter.  The
scores list is the output of the external BM25Okapi.get_scores aligned
with self.ids; zip truncates like Python zip. -/
def lexScored (lex : LexIndex) (scores : List ℚ) (topN : Nat) : List (KChunk × ℚ) :=
  (sortByDesc (fun q => q.2) (lex.chunks.zip scores)).take topN

/-- The result loop of LexicalIndex.search lines 87-98: enumerate the
sorted window (rank = 1-based position there), drop non-positive
scores and out-of-scope unit ids. -/
def lexRanked (scored : List (KChunk × ℚ)) (allowed : List String) : List RetrievalChunk :=
  scored.enum.filterMap (fun iq =>
    if iq.2.2 ≤ 0 then none
    else if !matchesScope iq.2.1.unitId allowed then none
    else some ⟨iq.2.1, iq.2.2, iq.1 + 1, "lexical"⟩)

/-- LexicalIndex.search (lines 71-98), with the external BM25 scorer a
parameter; an empty corpus means self.bm25 is None and the search
returns no results. -/
def lexSearch (lex : LexIndex) (getScores : List String → List ℚ) (query : String)
    (topN : Nat) (allowed : List String) : List RetrievalChunk :=
  if lex.chunks.isEmpty then []
  else lexRanked (lexScored lex (getScores (simpleTokenize query)) topN) allowed

/- ### vector stage (app/kb/retrieval.py lines 165-194) -/

/-- One hit of the external vector index query, with distance already
resolved the way line 189 does (item score, else distance, else 0)
and the metadata fields the fallback chunk constructor reads. -/
structure VectorItem where
  chunkId : String
  distance : ℚ
  unitId : String
  sourcePath : String
  sectionName : String
  document : String
deriving DecidableEq, Repr

/-- HybridRetriever._vector_search result loop (lines 173-194): the
chunk comes from the lexical cache when present, otherwise it is
rebuilt from the hit metadata; out-of-scope unit ids are dropped; the
score is 1/(1+distance); rank is the 1-based hit position. -/
def vectorSearch (lex : LexIndex) (items : List VectorItem) (allowed : List String) :
    List RetrievalChunk :=
  items.enum.filterMap (fun ip =>
    let it := ip.2
    let chunk :=
      match lex.chunks.find? (fun c => c.chunkId == it.chunkId) with
      | some c => c
      | none => ⟨it.chunkId, it.unitId, it.sourcePath, it.sectionName, it.document⟩
    if !matchesScope chunk.unitId allowed then none
    else some ⟨chunk, 1 / (1 + it.distance), ip.1 + 1, "vector"⟩)

/- ### KnowledgeGraph (app/kb/graph.py) -/

/-- FUNCTION_TERMS of app/kb/graph.py lines 15-38. -/
def functionTerms : List String :=
  ["finance", "sales", "hr", "security", "product", "compliance", "it", "revops",
   "wellness", "wellbeing", "legal", "marketing", "communications", "comms",
   "customer", "trust", "support", "people", "talent", "operations", "ops", "enablement"]

/-- Split a character list at a separator character (Python str.split
with a one-character separator). -/
def splitChar (sep : Char) : List Char → List (List Char)
  | [] => [[]]
  | c :: rest =>
    let ls := splitChar sep rest
    if c = sep then [] :: ls
    else
      match ls with
      | [] => [[c]]
      | l :: ls2 => (c :: l) :: ls2

/-- normalize_tags (app/kb/graph.py lines 47-65) on the comma-joined
tags string stored in the units table: split on commas, strip,
lowercase, drop empties. -/
def normalizeTags (raw : String) : List String :=
  (((splitChar ',' raw.data).map (fun t => pyLower (pyStrip ⟨t⟩))).filter
    (fun t => !t.isEmpty))

/-- A row of the units table as the graph reads it (columns the graph
search observes). -/
structure UnitRow where
  id : String
  title : String
  category : String
  tags : String
  summary : String
  sourcePath : String
deriving DecidableEq, Repr

/-- A row of the unit_contacts table. -/
structure ContactRow where
  unitId : String
  name : String
  title : Option String
  email : Option String
  slack : Option String
  phone : Option String
  notes : Option String
deriving DecidableEq, Repr

/-- The store rows the KnowledgeGraph refresh reads: units, contacts
(in the ORDER BY priority, name order the store returns), system rows
(unit_id, system_name) and relation rows (unit_id, related_unit_id).
Unit ids and (unit_id, name) contact keys are primary-key unique. -/
structure GraphState where
  units : List UnitRow
  contacts : List ContactRow
  systems : List (String × String)
  relations : List (String × String)
deriving DecidableEq, Repr

/-- The tag set of a unit (refresh line 102: set(normalize_tags)). -/
def unitTags (u : UnitRow) : List String :=
  dedupKeepFirst (normalizeTags u.tags)

/-- The token set indexed for a unit by refresh lines 104-109: tokens
of the space-joined tag set, the category, the title and the first 280
characters of the summary. -/
def unitTokens (u : UnitRow) : List String :=
  dedupKeepFirst (tokenizeSet (String.intercalate " " (unitTags u)) ++
    tokenizeSet u.category ++ tokenizeSet u.title ++ tokenizeSet (pyTake 280 u.summary))

/-- Membership of a unit in the system token index (refresh lines
114-119): a system row for a known unit whose name tokens contain the
token. -/
def systemHasToken (g : GraphState) (uid t : String) : Bool :=
  g.units.any (fun u => u.id == uid) &&
    g.systems.any (fun r => r.1 == uid && (tokenizeSet r.2).contains t)

/-- The token set indexed for a contact by refresh lines 121-126: name
and title tokens plus, for a non-empty email, its tokens with "@" and
"." replaced by spaces. -/
def contactTokens (c : ContactRow) : List String :=
  dedupKeepFirst (tokenizeSet c.name ++ tokenizeSet (c.title.getD "") ++
    (match c.email with
     | some e =>
       if e.isEmpty then []
       else tokenizeSet ⟨e.data.map (fun ch => if ch = '@' || ch = '.' then ' ' else ch)⟩
     | none => []))

/-- _match_contacts summed token-overlap score of one contact: one
point per query token indexing the contact. -/
def contactScore (c : ContactRow) (tokens : List String) : ℚ :=
  ((tokens.filter (fun t => (contactTokens c).contains t)).length : ℚ)

/-- Contact card text of _contact_to_chunk (lines 257-296).  A NULL
title renders through the f-string as the text None. -/
def contactCard (c : ContactRow) : String :=
  let line1 := c.name ++ " â€“ " ++ (c.title.getD "None")
  let ls := [line1] ++
    (match c.email with | some e => if e.isEmpty then [] else ["Email: " ++ e] | none => []) ++
    (match c.slack with | some s => if s.isEmpty then [] else ["Slack: " ++ s] | none => []) ++
    (match c.phone with | some q => if q.isEmpty then [] else ["Phone: " ++ q] | none => []) ++
    (match c.notes with | some n => if n.isEmpty then [] else [n] | none => [])
  String.intercalate "\n" ls

/-- _contact_to_chunk: the synthetic graph chunk for a contact. -/
def contactToChunk (g : GraphState) (c : ContactRow) (score : ℚ) (rank : Nat) :
    RetrievalChunk :=
  { chunk := {
      chunkId := c.unitId ++ ":contact:" ++ toString rank,
      unitId := c.unitId,
      sourcePath := ((g.units.find? (fun u => u.id == c.unitId)).map (·.sourcePath)).getD "",
      sectionName := "contacts",
      text := contactCard c },
    score := score, rank := rank, source := "graph" }

/-- _unit_to_chunk (lines 235-255): the synthetic graph chunk for a
unit; the text is the summary, else the title. -/
def unitToChunk (u : UnitRow) (score : ℚ) (rank : Nat) : RetrievalChunk :=
  { chunk := {
      chunkId := u.id ++ ":graph:" ++ toString rank,
      unitId := u.id,
      sourcePath := u.sourcePath,
      sectionName := "graph",
      text := if u.summary.isEmpty then u.title else u.summary },
    score := score, rank := rank, source := "graph" }

/-- _match_contacts (lines 175-188): contacts ranked by descending
summed token overlap (stable in contact order for ties), built with
tier-local ranks. -/
def matchContacts (g : GraphState) (tokens : List String) : List RetrievalChunk :=
  let scored := g.contacts.filter (fun c => 0 < contactScore c tokens)
  let ranked := sortByDesc (fun c => contactScore c tokens) scored
  ranked.enum.map (fun ic => contactToChunk g ic.2 (contactScore ic.2 tokens) (ic.1 + 1))

/-- The pre-propagation score a unit accumulates in _match_units lines
194-203: per query token, 1 for a tag-index hit, 0.8 for a system-index
hit, 0.5 for a token of the unit id, 0.6 for membership in the unit's
tag set. -/
def unitBaseScore (g : GraphState) (tokens : List String) (uid : String) : ℚ :=
  (tokens.map (fun t =>
    (if g.units.any (fun u => u.id == uid && (unitTokens u).contains t) then (1 : ℚ) else 0) +
    (if systemHasToken g uid t then (8 : ℚ) / 10 else 0) +
    (if g.units.any (fun u => u.id == uid) && (tokenizeSet uid).contains t then (1 : ℚ) / 2 else 0) +
    (if g.units.any (fun u => u.id == uid && (unitTags u).contains t) then (6 : ℚ) / 10 else 0))).sum

/-- The post-propagation score of _match_units lines 204-207: the base
score plus 0.3 times the base score of every unit relating to this
one (per relation row; units with zero base contribute zero, exactly
as only scored units propagate in the source). -/
def unitFinalScore (g : GraphState) (tokens : List String) (uid : String) : ℚ :=
  unitBaseScore g tokens uid +
    ((g.relations.filter (fun r => r.2 == uid)).map
      (fun r => (3 : ℚ) / 10 * unitBaseScore g tokens r.1)).sum

/-- _match_units (lines 190-218): known units with positive scores,
descending (score ties in table order, standing in for dict insertion
order, which Python leaves to set iteration), skipping already-seen
units, with tier-local ranks. -/
def matchUnits (g : GraphState) (tokens : List String) (seen : List String) :
    List RetrievalChunk :=
  let cands := g.units.filter (fun u => 0 < unitFinalScore g tokens u.id)
  let ranked := sortByDesc (fun u => unitFinalScore g tokens u.id) cands
  (ranked.foldl (fun acc u =>
      if acc.2.contains u.id then acc
      else (acc.1 ++ [unitToChunk u (unitFinalScore g tokens u.id) (acc.1.length + 1)],
            acc.2 ++ [u.id]))
    (([] : List RetrievalChunk), seen)).1

/-- _match_functions (lines 220-233): per query token that is a
function term, the units carrying that tag (table order), fixed score
1.2, deduplicating against and extending the seen set; returns the
matches and the grown seen set (the source mutates seen in place). -/
def matchFunctions (g : GraphState) (tokens : List String) (seen : List String) :
    List RetrievalChunk × List String :=
  tokens.foldl (fun acc t =>
    if functionTerms.contains t then
      g.units.foldl (fun acc2 u =>
        if (unitTags u).contains t then
          if acc2.2.contains u.id then acc2
          else (acc2.1 ++ [unitToChunk u ((12 : ℚ) / 10) (acc2.1.length + 1)],
                acc2.2 ++ [u.id])
        else acc2) acc
    else acc) (([] : List RetrievalChunk), seen)

/-- The append loop shared by the three tiers of KnowledgeGraph.search
(lines 150-173): append each chunk with rank = current result length
plus one, reporting whether top_n was reached. -/
def extendRanked (topN : Nat) : List RetrievalChunk → List RetrievalChunk →
    List RetrievalChunk × Bool
  | acc, [] => (acc, false)
  | acc, c :: cs =>
    let acc2 := acc ++ [{ c with rank := acc.length + 1 }]
    if topN ≤ acc2.length then (acc2, true)
    else extendRanked topN acc2 cs

/-- KnowledgeGraph.search (lines 138-173): contact tier capped at
max(1, top_n // 2), then function-term tier, then unit tier, each
deduplicating against the units already chosen and stopping at top_n. -/
def graphSearch (g : GraphState) (query : String) (topN : Nat) : List RetrievalChunk :=
  if (pyStrip query).isEmpty then []
  else
    let tokens := tokenizeSet query
    if tokens.isEmpty then []
    else
      let contactChunks := matchContacts g tokens
      let maxContact := max 1 (topN / 2)
      match extendRanked topN [] (contactChunks.take maxContact) with
      | (r1, true) => r1
      | (r1, false) =>
        let seen1 := r1.map (fun c => c.chunk.unitId)
        match matchFunctions g tokens seen1 with
        | (fnChunks, seen2) =>
          match extendRanked topN r1 fnChunks with
          | (r2, true) => r2
          | (r2, false) => (extendRanked topN r2 (matchUnits g tokens seen2)).1

/- ### fusion and retrieve (app/kb/retrieval.py lines 101-238) -/

/-- The fused score a chunk id accumulates in _reciprocal_rank_fusion
lines 122-126: the sum of 1/(50 + rank) over every occurrence of the
id across the stage lists (an id absent from a list gets nothing from
it). -/
def fusionScore (cands : List (List RetrievalChunk)) (cid : String) : ℚ :=
  ((cands.flatten.filter (fun rc => rc.chunk.chunkId == cid)).map
    (fun rc => 1 / (50 + (rc.rank : ℚ)))).sum

/-- chunk_map of _reciprocal_rank_fusion: the first occurrence of each
chunk id, in stage-then-rank iteration order. -/
def dedupByChunkId (l : List RetrievalChunk) : List RetrievalChunk :=
  (l.foldl (fun acc rc =>
      if acc.2.contains rc.chunk.chunkId then acc
      else (acc.1 ++ [rc], acc.2 ++ [rc.chunk.chunkId]))
    (([] : List RetrievalChunk), ([] : List String))).1

/-- _reciprocal_rank_fusion (lines 121-135): deduplicated chunks
sorted by descending fused score, then each is given its 1-based fused
rank and the display score 100 times the fused score. -/
def reciprocalRankFusion (cands : List (List RetrievalChunk)) : List RetrievalChunk :=
  let chunkMap := dedupByChunkId cands.flatten
  let ranked := sortByDesc (fun rc => fusionScore cands rc.chunk.chunkId) chunkMap
  ranked.enum.map (fun ir =>
    { ir.2 with rank := ir.1 + 1, score := fusionScore cands ir.2.chunk.chunkId * 100 })

/-- _maybe_rerank (lines 137-156) with the external cross-encoder as a
parameter: predict returning none models both a model-load failure and
a predict failure (the pre-rerank order is returned unchanged); on
success the first max(1, rerank_max_candidates) chunks get the
predicted scores (zip truncates) and the whole list is re-sorted by
descending score. -/
def maybeRerank (rerankMax : Nat) (predict : String → List String → Option (List ℚ))
    (query : String) (chunks : List RetrievalChunk) : List RetrievalChunk :=
  if chunks.isEmpty then chunks
  else
    let maxC := max 1 rerankMax
    let cands := chunks.take maxC
    match predict query (cands.map (fun rc => rc.chunk.text)) with
    | none => chunks
    | some scores =>
      let cands2 := (cands.zip scores).map (fun q => { q.1 with score := q.2 }) ++
        cands.drop scores.length
      sortByDesc (fun rc => rc.score) (cands2 ++ chunks.drop cands.length)

/-- RetrievalSettings (app/core/config.py lines 55-65) restricted to
the knobs retrieve reads, with rerank_max_candidates already resolved
through its environment override. -/
structure RetrievalSettings where
  topNLexical : Nat
  topNVector : Nat
  topKFinal : Nat
  minScoreThreshold : ℚ
  rerankMaxCandidates : Nat
deriving DecidableEq, Repr

/-- The configured defaults: 8, 8, 6, 0.15, 50. -/
def defaultRetrievalSettings : RetrievalSettings := ⟨8, 8, 6, (15 : ℚ) / 100, 50⟩

/-- _normalize_query (line 118-119): strip, lowercase, collapse
whitespace runs to single spaces. -/
def normalizeQuery (query : String) : String :=
  String.intercalate " "
    ((runsOf (fun c => !pyWhite c) (pyStrip query).data).map
      (fun r => pyLower (⟨r⟩ : String)))

/-- One {chunk_id, score, rank} record of the debug trace. -/
structure DebugEntry where
  chunkId : String
  score : ℚ
  rank : Nat
deriving DecidableEq, Repr

/-- The debug projection of a stage result list. -/
def debugEntries (l : List RetrievalChunk) : List DebugEntry :=
  l.map (fun c => ⟨c.chunk.chunkId, c.score, c.rank⟩)

/-- RetrievalResult: the selected chunks plus the debug trace.  The
source's debug dict carries a fifth key "threshold" holding the single
record [(value, threshold)]; its value is the thresholdUsed field
here because its record shape differs from the stage entries. -/
structure RetrievalResult where
  query : String
  selectedChunks : List RetrievalChunk
  debug : List (String × List DebugEntry)
  thresholdUsed : ℚ
deriving DecidableEq, Repr

/-- Steps 2-4 of HybridRetriever.retrieve (lines 202-212) on the
already-normalized query: the three stage searches, reciprocal rank
fusion, and the rerank pass that runs only when the vector stage
returned results.  The graph stage receives no allow-list: the source
calls self.graph.search(normalized, top_k_final) and
KnowledgeGraph.search has no scoping parameter. -/
def retrieveFused (lex : LexIndex) (getScores : List String → List ℚ)
    (vectorQuery : String → Nat → List VectorItem) (g : GraphState)
    (predict : String → List String → Option (List ℚ))
    (settings : RetrievalSettings) (normalized : String)
    (allowed : List String) : List RetrievalChunk :=
  let lexicalChunks := lexSearch lex getScores normalized settings.topNLexical allowed
  let vectorChunks := vectorSearch lex (vectorQuery normalized settings.topNVector) allowed
  let graphChunks := graphSearch g normalized settings.topKFinal
  let fused0 := reciprocalRankFusion [lexicalChunks, vectorChunks, graphChunks]
  if vectorChunks.isEmpty then fused0
  else maybeRerank settings.rerankMaxCandidates predict normalized fused0

/-- HybridRetriever.retrieve (lines 196-238) with the three external
collaborators (BM25 scorer, vector index query, reranker predict) as
parameters: normalize, run and fuse the stages (retrieveFused), apply
the score threshold, cap at top_k_final, and return the selection with
the per-stage debug trace. -/
def retrieve (lex : LexIndex) (getScores : List String → List ℚ)
    (vectorQuery : String → Nat → List VectorItem) (g : GraphState)
    (predict : String → List String → Option (List ℚ))
    (settings : RetrievalSettings) (query : String)
    (minScoreOverride : Option ℚ) (allowed : List String) : RetrievalResult :=
  let normalized := normalizeQuery query
  let lexicalChunks := lexSearch lex getScores normalized settings.topNLexical allowed
  let vectorChunks := vectorSearch lex (vectorQuery normalized settings.topNVector) allowed
  let graphChunks := graphSearch g normalized settings.topKFinal
  let fused := retrieveFused lex getScores vectorQuery g predict settings normalized allowed
  let threshold := minScoreOverride.getD settings.minScoreThreshold
  let filtered := fused.filter (fun c => threshold ≤ c.score)
  let selected := if filtered.isEmpty then [] else filtered.take settings.topKFinal
  { query := query,
    selectedChunks := selected,
    debug := [("lexical", debugEntries lexicalChunks), ("vector", debugEntries vectorChunks),
      ("graph", debugEntries graphChunks), ("fused", debugEntries fused)],
    thresholdUsed := threshold }

/- ### concrete instances used by the closed theorems -/

/-- The markdown body of the repository's own parser test
(tests/test_parser.py build_markdown) after front-matter removal and
stripping, exactly as parse_file hands it to parse_sections. -/
def kbTestBody : String :=
  "# Summary\nShort description.\n\n# Details\nMore text here about prompt engineering."

/-- A 281-character explicit front-matter summary value. -/
def longSummary : String := ⟨List.replicate 281 'a'⟩

/-- A one-unit graph state: a finance unit whose id lies outside the
HR- scope. -/
def finGraph : GraphState :=
  ⟨[⟨"FIN-1", "Expense policy", "policy", "finance", "How expenses work", "kb/fin.md"⟩],
   [], [], []⟩

/-- The graph state of an empty corpus. -/
def emptyGraph : GraphState := ⟨[], [], [], []⟩

/-- A bare stage-result chunk used in the fusion instances. -/
def rrfChunk (cid : String) (r : Nat) : RetrievalChunk :=
  ⟨⟨cid, "", "", "", ""⟩, 0, r, "lexical"⟩

end KMS

/- ### claim theorems -/

open KMS

/-- C2: parse_sections is specified to split the body at markdown
heading boundaries into one section per heading.  On the repository's
own parser-test body the code instead returns the single "body"
section and no "summary" section, because SECTION_PATTERN is the raw
string r"^(#+)\\s+(.+)$": the doubled backslash makes the regex demand
a literal backslash plus a run of 's' after the hashes, so a normal
markdown heading line never matches (last conjunct shows the only kind
of line that does).  The no-heading clause of the claim is the one
part that holds. -/
theorem heading_regex_never_splits :
    parseSections kbTestBody = [("body", kbTestBody)] ∧
    sectionsGet (parseSections kbTestBody) "summary" = none ∧
    headingMatch "# Summary".data = false ∧
    headingMatch "#\\s Summary".data = true := by decide

/-- C4 counterexample: with chunk_size = 2 > 0 and overlap = 2 the
window start never advances (max(0, window_end - overlap) returns the
loop to position 0 on the three-character section text "abc"), so the
chunk_unit loop runs forever: no amount of fuel finishes it, and
chunk_unit diverges on a unit holding that section. -/
theorem chunk_unit_no_progress :
    chunkWindowsDiverge 2 2 "abc".data ∧
    chunkUnit ⟨"U", [("details", "abc")], "abc"⟩ 2 2 = none := by
  constructor
  · intro fuel
    induction fuel with
    | zero => rfl
    | succ n ih =>
      have step : chunkWindows 2 2 "abc".data (n + 1) 0 =
          (match chunkWindows 2 2 "abc".data n 0 with
           | none => none
           | some rest => some ("ab".data :: rest)) := rfl
      rw [step, ih]
  · decide

/-- The chunk_unit while loop reaches the end of the section within
text.length iterations whenever overlap < chunk_size, because each
iteration then advances the window start by at least one. -/
theorem chunkWindows_isSome_of_lt (chunkSize overlap : Nat) (hov : overlap < chunkSize)
    (text : List Char) :
    ∀ fuel start, text.length - start < fuel →
      (chunkWindows chunkSize overlap text fuel start).isSome = true := by
  intro fuel
  induction fuel with
  | zero => intro start h; omega
  | succ n ih =>
    intro start h
    simp only [chunkWindows]
    split
    · rename_i hstart
      split
      · simp
      · rename_i hne
        have hmin : min text.length (start + chunkSize) = start + chunkSize := by
          rcases Nat.le_total (start + chunkSize) text.length with hle | hle
          · exact Nat.min_eq_right hle
          · exact absurd (Nat.min_eq_left hle) hne
        have hlt : start + chunkSize < text.length := by
          rcases Nat.lt_or_ge (start + chunkSize) text.length with hlt | hge
          · exact hlt
          · exact absurd (Nat.min_eq_left hge) hne
        have hrec := ih (min text.length (start + chunkSize) - overlap) (by omega)
        cases hcw : chunkWindows chunkSize overlap text n
            (min text.length (start + chunkSize) - overlap) with
        | none => rw [hcw] at hrec; simp at hrec
        | some ws => rfl
    · simp

/-- The section loop of chunk_unit succeeds on every section list when
overlap < chunk_size. -/
theorem chunkSections_isSome (uId : String) (chunkSize overlap : Nat)
    (hov : overlap < chunkSize) (secs : List (String × String)) :
    (chunkSections uId chunkSize overlap secs).isSome = true := by
  induction secs with
  | nil => rfl
  | cons p rest ih =>
    simp only [chunkSections]
    split
    · exact ih
    · have hw := chunkWindows_isSome_of_lt chunkSize overlap hov p.2.data
        (p.2.data.length + 1) 0 (by omega)
      cases hcw : chunkWindows chunkSize overlap p.2.data (p.2.data.length + 1) 0 with
      | none => rw [hcw] at hw; simp at hw
      | some ws =>
        cases hcs : chunkSections uId chunkSize overlap rest with
        | none => rw [hcs] at ih; simp at ih
        | some more => rfl

/-- C4 amended: chunk_unit advances the window start to
max(0, window_end - overlap) after each emitted chunk, and this makes
forward progress - so chunk_unit terminates on every section text - if
and only if the caller keeps overlap below chunk_size; with
overlap >= chunk_size the loop can run forever (see the
counterexample).  Here: termination for every unit whenever
overlap < chunk_size. -/
theorem chunk_unit_terminates (u : UnitSections) (chunkSize overlap : Nat)
    (hov : overlap < chunkSize) : (chunkUnit u chunkSize overlap).isSome = true := by
  unfold chunkUnit
  cases hcs : chunkSections u.id chunkSize overlap u.sections with
  | none =>
    have := chunkSections_isSome u.id chunkSize overlap hov u.sections
    rw [hcs] at this; simp at this
  | some chs => cases chs <;> rfl

/-- Witness for the amended C4 theorem at the configured default shape
(overlap below chunk size). -/
theorem chunk_unit_terminates_witness :
    (chunkUnit ⟨"U", [("details", "abcd")], "abcd"⟩ 2 1).isSome = true :=
  chunk_unit_terminates ⟨"U", [("details", "abcd")], "abcd"⟩ 2 1 (by decide)

set_option maxRecDepth 8000 in
/-- C5 counterexample: a 281-character explicit front-matter summary
reaches the unit untouched - metadata.get("summary") short-circuits
the or-expression on parse_file line 109 before derive_summary's
280-character cut can apply - so the resulting summary is longer than
280 characters. -/
theorem summary_not_truncated :
    (summaryOf (some longSummary) [] "").length = 281 ∧
    ¬((summaryOf (some longSummary) [] "").length ≤ 280) := by decide

/-- A non-empty head candidate is the first truthy candidate. -/
theorem firstTruthy_cons_of_ne (s : String) (rest : List (Option String))
    (h : s.isEmpty = false) : firstTruthy (some s :: rest) = some s := by
  simp [firstTruthy, h]

/-- C5 amended: the summary is taken in priority order from the
explicit front-matter field, the "summary" section, the "overview"
section, then the body; the 280-character truncation applies to every
derived candidate but not to the explicit field, which is used
verbatim. -/
theorem summary_priority_and_truncation :
    (∀ s secs body, s.isEmpty = false → summaryOf (some s) secs body = s) ∧
    (∀ secs body, summaryOf none secs body = deriveSummary secs body) ∧
    (∀ secs body, (deriveSummary secs body).length ≤ 280) ∧
    (∀ secs body t, sectionsGet secs "summary" = some t → t.isEmpty = false →
      deriveSummary secs body = pyTake 280 (pyStrip t)) ∧
    (∀ secs body t, sectionsGet secs "summary" = none →
      sectionsGet secs "overview" = some t → t.isEmpty = false →
      deriveSummary secs body = pyTake 280 (pyStrip t)) := by
  refine ⟨?_, ?_, ?_, ?_, ?_⟩
  · intro s secs body h
    simp [summaryOf, h]
  · intro secs body
    rfl
  · intro secs body
    unfold deriveSummary
    cases firstTruthy [sectionsGet secs "summary", sectionsGet secs "overview",
        sectionsGet secs "body", some body] with
    | none => decide
    | some c =>
      show (pyTake 280 (pyStrip c)).length ≤ 280
      have h1 : (pyTake 280 (pyStrip c)).length = min 280 (pyStrip c).data.length :=
        List.length_take 280 (pyStrip c).data
      rw [h1]
      exact Nat.min_le_left _ _
  · intro secs body t ht hne
    unfold deriveSummary
    rw [ht, firstTruthy_cons_of_ne t _ hne]
  · intro secs body t hs ht hne
    unfold deriveSummary
    rw [hs, ht, firstTruthy, firstTruthy_cons_of_ne t _ hne]

/-- Witness for the amended C5 theorem: a non-empty explicit summary
passes through verbatim, and a "summary" section is preferred when the
explicit field is absent. -/
theorem summary_priority_witness :
    summaryOf (some "hi") [("summary", "sec text")] "body" = "hi" ∧
    deriveSummary [("summary", "sec text")] "body" = pyTake 280 (pyStrip "sec text") :=
  ⟨summary_priority_and_truncation.1 "hi" [("summary", "sec text")] "body" (by decide),
   summary_priority_and_truncation.2.2.2.1 [("summary", "sec text")] "body" "sec text"
     (by decide) (by decide)⟩

/-- C10: a document whose front-matter omits the confidence field gets
the default "medium" (metadata.get("confidence", "medium")); a value
from the configured set passes through; only a present value outside
the set {low, medium, high} is coerced to "low". -/
theorem confidence_rules :
    parseConfidence none = "medium" ∧
    (∀ s, confidenceLevels.contains s = true → parseConfidence (some s) = s) ∧
    (∀ s, confidenceLevels.contains s = false → parseConfidence (some s) = "low") := by
  refine ⟨rfl, ?_, ?_⟩ <;> intro s h
  · show (if confidenceLevels.contains s = true then s else "low") = s
    rw [if_pos h]
  · show (if confidenceLevels.contains s = true then s else "low") = "low"
    rw [if_neg (by rw [h]; exact Bool.false_ne_true)]

/-- Witness for the C10 theorem at concrete confidence values. -/
theorem confidence_rules_witness :
    parseConfidence none = "medium" ∧ parseConfidence (some "high") = "high" ∧
    parseConfidence (some "certain") = "low" :=
  ⟨confidence_rules.1, confidence_rules.2.1 "high" (by decide),
   confidence_rules.2.2 "certain" (by decide)⟩

/- ### ledger lookup lemmas for the ingestion claims -/

/-- Upserting key k and then looking k up yields the new value
(overwrite branch of upsertAssoc). -/
theorem find?_map_self (d : List (String × String)) (k v : String)
    (hany : d.any (fun r => r.1 == k) = true) :
    ((d.map (fun r => if r.1 == k then (k, v) else r)).find?
      (fun r => r.1 == k)).map (·.2) = some v := by
  induction d with
  | nil => simp at hany
  | cons p d ih =>
    rw [List.map_cons]
    by_cases hp : p.1 = k
    · have e1 : (if p.1 == k then (k, v) else p) = (k, v) := by simp [hp]
      rw [e1]
      simp only [List.find?, beq_self_eq_true]
      rfl
    · have e1 : (if p.1 == k then (k, v) else p) = p := by simp [hp]
      have hd : d.any (fun r => r.1 == k) = true := by
        rcases List.any_eq_true.mp hany with ⟨x, hx, hxk⟩
        rcases List.mem_cons.mp hx with rfl | hx2
        · exact absurd (by simpa using hxk) hp
        · exact List.any_eq_true.mpr ⟨x, hx2, hxk⟩
      have hb : (p.1 == k) = false := by
        simp only [beq_eq_false_iff_ne]; exact hp
      rw [e1]
      simp only [List.find?, hb]
      exact ih hd

/-- The overwrite branch of upsertAssoc leaves lookups of other keys
unchanged. -/
theorem find?_map_ne (d : List (String × String)) (k v q : String) (hq : q ≠ k) :
    (d.map (fun r => if r.1 == k then (k, v) else r)).find? (fun r => r.1 == q) =
      d.find? (fun r => r.1 == q) := by
  induction d with
  | nil => rfl
  | cons p d ih =>
    rw [List.map_cons]
    have hb1 : ((k : String) == q) = false := by
      simp only [beq_eq_false_iff_ne]; exact Ne.symm hq
    by_cases hp : p.1 = k
    · have e1 : (if p.1 == k then (k, v) else p) = (k, v) := by simp [hp]
      have hb2 : (p.1 == q) = false := by rw [hp]; exact hb1
      rw [e1]
      simp only [List.find?, hb1, hb2, ih]
    · have e1 : (if p.1 == k then (k, v) else p) = p := by simp [hp]
      rw [e1]
      cases hgp : (p.1 == q) with
      | true => simp only [List.find?, hgp]
      | false => simp only [List.find?, hgp, ih]

/-- upsertAssoc then lookup of the upserted key. -/
theorem lookup_upsert_self (d : List (String × String)) (k v : String) :
    ((upsertAssoc d k v).find? (fun r => r.1 == k)).map (·.2) = some v := by
  unfold upsertAssoc
  split
  · next hany => exact find?_map_self d k v hany
  · next hany =>
    have hnone : d.find? (fun r => r.1 == k) = none := by
      rw [List.find?_eq_none]
      intro x hx hxk
      exact hany (List.any_eq_true.mpr ⟨x, hx, hxk⟩)
    simp [List.find?_append, hnone, List.find?]

/-- upsertAssoc leaves lookups of other keys unchanged. -/
theorem lookup_upsert_ne (d : List (String × String)) (k v q : String) (hq : q ≠ k) :
    (upsertAssoc d k v).find? (fun r => r.1 == q) = d.find? (fun r => r.1 == q) := by
  unfold upsertAssoc
  split
  · exact find?_map_ne d k v q hq
  · rw [List.find?_append]
    have h1 : ([(k, v)].find? (fun r => r.1 == q)) = none := by
      have hb : ((k, v).1 == q) = false := by
        simp only [beq_eq_false_iff_ne]; exact Ne.symm hq
      simp [List.find?, hb]
    rw [h1]
    cases d.find? (fun r => r.1 == q) <;> rfl

/-- A key of the upserted ledger is an old key or the upserted one. -/
theorem keys_upsert (d : List (String × String)) (k v q : String)
    (hq : q ∈ (upsertAssoc d k v).map (·.1)) : q ∈ d.map (·.1) ∨ q = k := by
  unfold upsertAssoc at hq
  split at hq
  · rw [List.map_map, List.mem_map] at hq
    obtain ⟨r, hr, hkey⟩ := hq
    by_cases hp : r.1 = k
    · right
      rw [← hkey]
      simp [Function.comp, hp]
    · left
      rw [List.mem_map]
      refine ⟨r, hr, ?_⟩
      rw [← hkey]
      simp [Function.comp, hp]
  · rw [List.map_append, List.mem_append] at hq
    rcases hq with h | h
    · exact Or.inl h
    · right; simpa using h

/-- getFileHash after update_file of the same path. -/
theorem getFileHash_updateFile_self (st : Store) (p h : String) :
    getFileHash (updateFile st p h) p = some h :=
  lookup_upsert_self st.files p h

/-- getFileHash after update_file of a different path. -/
theorem getFileHash_updateFile_ne (st : Store) (p h q : String) (hq : q ≠ p) :
    getFileHash (updateFile st p h) q = getFileHash st q := by
  show ((upsertAssoc st.files p h).find? (fun r => r.1 == q)).map (·.2) = _
  rw [lookup_upsert_ne st.files p h q hq]
  rfl

/-- Deleting one file record leaves lookups of other paths unchanged. -/
theorem find?_filter_ne (d : List (String × String)) (p q : String) (hq : q ≠ p) :
    (d.filter (fun r => !(r.1 == p))).find? (fun r => r.1 == q) =
      d.find? (fun r => r.1 == q) := by
  induction d with
  | nil => rfl
  | cons r d ih =>
    have hpq : (p == q) = false := by
      simp only [beq_eq_false_iff_ne]; exact Ne.symm hq
    by_cases hr : r.1 = p
    · have h1 : ¬(r.1 = q) := by rw [hr]; exact fun e => hq e.symm
      simp [List.filter_cons, List.find?, hr, h1, hpq, ih]
    · by_cases hrq : r.1 = q
      · simp [List.filter_cons, List.find?, hr, hrq, hq, fun e => hq (Eq.symm e)]
      · have hb : (r.1 == q) = false := by simp [hrq]
        simp [List.filter_cons, List.find?, hr, hb, hq, ih]

/-- The unit-delete cascade never touches the files ledger. -/
theorem files_deleteUnits (uids : List String) : ∀ s : Store,
    (uids.foldl (fun s uid => deleteUnit s uid) s).files = s.files := by
  induction uids with
  | nil => intro s; rfl
  | cons uid uids ih => intro s; rw [List.foldl_cons, ih]; rfl

/-- The ledger after one pruning step: the pruned path is filtered out. -/
theorem pruneStep_files (acc : Store × Nat) (p : String) :
    ((pruneStep acc p).1).files = acc.1.files.filter (fun r => !(r.1 == p)) := by
  unfold pruneStep deleteFileRecord
  simp only [files_deleteUnits]

/-- A path surviving one pruning step was known before and differs
from the pruned path. -/
theorem known_pruneStep (acc : Store × Nat) (p q : String)
    (h : q ∈ listKnownFiles (pruneStep acc p).1) :
    q ∈ listKnownFiles acc.1 ∧ q ≠ p := by
  unfold listKnownFiles at *
  rw [pruneStep_files] at h
  simp only [List.mem_map, List.mem_filter] at h
  obtain ⟨r, ⟨hr, hne⟩, rfl⟩ := h
  refine ⟨List.mem_map_of_mem _ hr, ?_⟩
  simpa using hne

/-- Folding pruning steps over paths that avoid q leaves q's ledger
entry unchanged. -/
theorem foldPrune_getFileHash (L : List String) : ∀ (acc : Store × Nat) (q : String),
    q ∉ L → getFileHash (L.foldl pruneStep acc).1 q = getFileHash acc.1 q := by
  induction L with
  | nil => intro acc q _; rfl
  | cons p L ih =>
    intro acc q h
    rw [List.foldl_cons, ih _ q (fun hh => h (List.mem_cons_of_mem _ hh))]
    have hqp : q ≠ p := fun e => h (e ▸ List.mem_cons_self _ _)
    show (((pruneStep acc p).1).files.find? (fun r => r.1 == q)).map (·.2) = _
    rw [pruneStep_files]
    exact congrArg (Option.map (·.2)) (find?_filter_ne acc.1.files p q hqp)

/-- A path known after folding pruning steps was known before and is
none of the pruned paths. -/
theorem foldPrune_known (L : List String) : ∀ (acc : Store × Nat) (q : String),
    q ∈ listKnownFiles (L.foldl pruneStep acc).1 →
      q ∈ listKnownFiles acc.1 ∧ q ∉ L := by
  induction L with
  | nil => intro acc q h; exact ⟨h, by simp⟩
  | cons p L ih =>
    intro acc q h
    rw [List.foldl_cons] at h
    obtain ⟨h1, h2⟩ := ih _ q h
    obtain ⟨h3, h4⟩ := known_pruneStep acc p q h1
    refine ⟨h3, ?_⟩
    simp [h4, h2]

/-- The pruning pass leaves the ledger entry of every processed path
unchanged. -/
theorem prunePass_getFileHash_mem (st : Store) (proc : List String) (q : String)
    (hq : q ∈ proc) : getFileHash (prunePass st proc).1 q = getFileHash st q := by
  unfold prunePass
  apply foldPrune_getFileHash
  intro hmem
  rw [List.mem_filter] at hmem
  have hc : proc.contains q = true := List.elem_eq_true_of_mem hq
  rw [hc] at hmem
  simp at hmem

/-- Every path still known after the pruning pass was processed. -/
theorem prunePass_known (st : Store) (proc : List String) (q : String)
    (hq : q ∈ listKnownFiles (prunePass st proc).1) : q ∈ proc := by
  unfold prunePass at hq
  obtain ⟨h1, h2⟩ := foldPrune_known _ _ _ hq
  by_contra hnp
  apply h2
  rw [List.mem_filter]
  refine ⟨List.mem_dedup.mpr h1, ?_⟩
  cases hcq : proc.contains q with
  | false => rfl
  | true => exact absurd (List.mem_of_elem_eq_true hcq) hnp

/-- When every known path was processed, the pruning pass is the
identity and deletes nothing. -/
theorem prunePass_all_processed (st : Store) (proc : List String)
    (h : ∀ q ∈ listKnownFiles st, q ∈ proc) : prunePass st proc = (st, 0) := by
  unfold prunePass
  have hfil : ((listKnownFiles st).dedup).filter (fun p => !proc.contains p) = [] := by
    rw [List.filter_eq_nil_iff]
    intro a ha
    have ha2 : a ∈ proc := h a (List.mem_dedup.mp ha)
    simp [ha2]
  rw [hfil]
  rfl

/- ### ingestion pass lemmas -/

/-- Indexing one document only writes that document's ledger path. -/
theorem getFileHash_indexStep_ne (st : Store) (u : ParsedUnit) (h : String)
    (chs : List (String × String)) (q : String) (hq : q ≠ u.sourcePath) :
    getFileHash (updateFile (upsertUnit (upsertChunks st u.id chs) u) u.sourcePath h) q =
      getFileHash st q := by
  show ((upsertAssoc st.files u.sourcePath h).find? (fun r => r.1 == q)).map (·.2) = _
  rw [lookup_upsert_ne st.files u.sourcePath h q hq]
  rfl

/-- Indexing one document records its hash at its ledger path. -/
theorem getFileHash_indexStep_self (st : Store) (u : ParsedUnit) (h : String)
    (chs : List (String × String)) :
    getFileHash (updateFile (upsertUnit (upsertChunks st u.id chs) u) u.sourcePath h)
      u.sourcePath = some h :=
  lookup_upsert_self st.files u.sourcePath h

/-- parsedPaths ignores a failed parse. -/
theorem parsedPaths_cons_none (docs : List (Option (ParsedUnit × String))) :
    parsedPaths (none :: docs) = parsedPaths docs := rfl

/-- parsedPaths of a successful parse starts with its source path. -/
theorem parsedPaths_cons_some (u : ParsedUnit) (h : String)
    (docs : List (Option (ParsedUnit × String))) :
    parsedPaths (some (u, h) :: docs) = u.sourcePath :: parsedPaths docs := rfl

/-- A successfully parsed document's source path is a parsed path. -/
theorem mem_parsedPaths_of_mem (docs : List (Option (ParsedUnit × String)))
    (u : ParsedUnit) (h : String) (hm : some (u, h) ∈ docs) :
    u.sourcePath ∈ parsedPaths docs := by
  induction docs with
  | nil => cases hm
  | cons d docs ih =>
    rcases List.mem_cons.mp hm with heq | hm2
    · rw [← heq, parsedPaths_cons_some]
      exact List.mem_cons_self _ _
    · cases d with
      | none => rw [parsedPaths_cons_none]; exact ih hm2
      | some p =>
        obtain ⟨u2, h2⟩ := p
        rw [parsedPaths_cons_some]
        exact List.mem_cons_of_mem _ (ih hm2)

/-- The document pass appends exactly the parsed source paths to the
processed list. -/
theorem ingestPass_processed (cs ov : Nat) (force : Bool)
    (docs : List (Option (ParsedUnit × String))) :
    ∀ st c proc, (ingestPass force cs ov docs st c proc).2.2 = proc ++ parsedPaths docs := by
  induction docs with
  | nil => intro st c proc; simp [ingestPass, parsedPaths]
  | cons d docs ih =>
    intro st c proc
    cases d with
    | none =>
      show (ingestPass force cs ov docs st _ proc).2.2 = _
      rw [ih, parsedPaths_cons_none]
    | some p =>
      obtain ⟨u, h⟩ := p
      simp only [ingestPass]
      split
      · rw [ih, parsedPaths_cons_some]; simp
      · rw [ih, parsedPaths_cons_some]; simp

/-- The document pass leaves the ledger entry of every path outside
the parsed paths unchanged. -/
theorem ingestPass_getFileHash_not_mem (cs ov : Nat)
    (docs : List (Option (ParsedUnit × String))) :
    ∀ st c proc q, q ∉ parsedPaths docs →
      getFileHash (ingestPass false cs ov docs st c proc).1 q = getFileHash st q := by
  induction docs with
  | nil => intro st c proc q _; rfl
  | cons d docs ih =>
    intro st c proc q hq
    cases d with
    | none =>
      show getFileHash (ingestPass false cs ov docs st _ proc).1 q = _
      exact ih st _ proc q (by rwa [parsedPaths_cons_none] at hq)
    | some p =>
      obtain ⟨u, h⟩ := p
      have hq2 : q ∉ parsedPaths docs := fun hh =>
        hq (by rw [parsedPaths_cons_some]; exact List.mem_cons_of_mem _ hh)
      have hqu : q ≠ u.sourcePath := fun e =>
        hq (by rw [parsedPaths_cons_some, e]; exact List.mem_cons_self _ _)
      simp only [ingestPass]
      split
      · exact ih st _ _ q hq2
      · rw [ih _ _ _ q hq2]
        exact getFileHash_indexStep_ne st u h _ q hqu

/-- After the document pass the ledger holds the content hash of every
successfully parsed document (distinct parsed paths assumed, as
distinct files have distinct repository-relative paths). -/
theorem ingestPass_getFileHash_parsed (cs ov : Nat)
    (docs : List (Option (ParsedUnit × String))) :
    ∀ st c proc, (parsedPaths docs).Nodup →
      ∀ u h, some (u, h) ∈ docs →
        getFileHash (ingestPass false cs ov docs st c proc).1 u.sourcePath = some h := by
  induction docs with
  | nil => intro st c proc _ u h hm; cases hm
  | cons d docs ih =>
    intro st c proc hnd u h hm
    cases d with
    | none =>
      rcases List.mem_cons.mp hm with heq | hm2
      · cases heq
      · show getFileHash (ingestPass false cs ov docs st _ proc).1 u.sourcePath = some h
        exact ih st _ proc (by rwa [parsedPaths_cons_none] at hnd) u h hm2
    | some p =>
      obtain ⟨u0, h0⟩ := p
      rw [parsedPaths_cons_some] at hnd
      obtain ⟨hnotin, hnd2⟩ := List.nodup_cons.mp hnd
      rcases List.mem_cons.mp hm with heq | hm2
      · obtain ⟨rfl, rfl⟩ : u = u0 ∧ h = h0 := by
          have h2 := Option.some.inj heq
          exact ⟨congrArg Prod.fst h2, congrArg Prod.snd h2⟩
        simp only [ingestPass]
        split
        · next hcond =>
          have hst : getFileHash st u.sourcePath = some h := by
            simpa using hcond
          rw [ingestPass_getFileHash_not_mem cs ov docs st _ _ u.sourcePath hnotin]
          exact hst
        · rw [ingestPass_getFileHash_not_mem cs ov docs _ _ _ u.sourcePath hnotin]
          exact getFileHash_indexStep_self st u h _
      · simp only [ingestPass]
        split
        · exact ih st _ _ hnd2 u h hm2
        · exact ih _ _ _ hnd2 u h hm2

/-- A document pass in which every parsed document's hash already
matches the ledger neither writes the store nor indexes or deletes
anything. -/
theorem ingestPass_all_match (cs ov : Nat) (docs : List (Option (ParsedUnit × String))) :
    ∀ st c proc, (∀ u h, some (u, h) ∈ docs → getFileHash st u.sourcePath = some h) →
      (ingestPass false cs ov docs st c proc).1 = st ∧
      (ingestPass false cs ov docs st c proc).2.1.indexed = c.indexed ∧
      (ingestPass false cs ov docs st c proc).2.1.deleted = c.deleted := by
  induction docs with
  | nil => intro st c proc _; exact ⟨rfl, rfl, rfl⟩
  | cons d docs ih =>
    intro st c proc hall
    cases d with
    | none =>
      show (ingestPass false cs ov docs st _ proc).1 = st ∧ _
      exact ih st _ proc (fun u h hm => hall u h (List.mem_cons_of_mem _ hm))
    | some p =>
      obtain ⟨u0, h0⟩ := p
      have hst : getFileHash st u0.sourcePath = some h0 :=
        hall u0 h0 (List.mem_cons_self _ _)
      simp only [ingestPass]
      rw [if_pos (by simp [hst])]
      exact ih st _ _ (fun u h hm => hall u h (List.mem_cons_of_mem _ hm))

/-- countP respects pointwise-equal predicates. -/
theorem countP_congr_mem {α : Type} (l : List α) (p q : α → Bool)
    (h : ∀ a ∈ l, p a = q a) : l.countP p = l.countP q := by
  induction l with
  | nil => rfl
  | cons a l ih =>
    rw [List.countP_cons, List.countP_cons, h a (List.mem_cons_self _ _),
      ih (fun b hb => h b (List.mem_cons_of_mem _ hb))]

/-- The skipped counter after the document pass counts parse failures
and hash matches together, each against the initial ledger (distinct
parsed paths assumed). -/
theorem ingestPass_skipped (cs ov : Nat) (docs : List (Option (ParsedUnit × String))) :
    ∀ st c proc, (parsedPaths docs).Nodup →
      (ingestPass false cs ov docs st c proc).2.1.skipped =
        c.skipped + docs.countP (skipsDoc st) := by
  induction docs with
  | nil => intro st c proc _; simp [ingestPass]
  | cons d docs ih =>
    intro st c proc hnd
    cases d with
    | none =>
      show (ingestPass false cs ov docs st _ proc).2.1.skipped = _
      rw [ih st _ proc (by rwa [parsedPaths_cons_none] at hnd), List.countP_cons]
      have ht : skipsDoc st none = true := rfl
      rw [ht]
      simp
      omega
    | some p =>
      obtain ⟨u0, h0⟩ := p
      rw [parsedPaths_cons_some] at hnd
      obtain ⟨hnotin, hnd2⟩ := List.nodup_cons.mp hnd
      simp only [ingestPass]
      split
      · next hcond =>
        rw [ih st _ _ hnd2, List.countP_cons]
        have ht : skipsDoc st (some (u0, h0)) = true := by
          simpa [skipsDoc] using hcond
        rw [ht]
        simp
        omega
      · next hcond =>
        rw [ih _ _ _ hnd2, List.countP_cons]
        have hf : skipsDoc st (some (u0, h0)) = false := by
          simp only [skipsDoc]
          cases hv : (getFileHash st u0.sourcePath == some h0) with
          | false => rfl
          | true => exact absurd (by simp [hv]) hcond
        rw [hf]
        have hcong :
            docs.countP (skipsDoc
              (updateFile (upsertUnit (upsertChunks st u0.id
                ((chunkUnit ⟨u0.id, u0.sections, u0.body⟩ cs ov).getD [])) u0)
                u0.sourcePath h0)) = docs.countP (skipsDoc st) := by
          apply countP_congr_mem
          intro d2 hd2
          cases d2 with
          | none => rfl
          | some p2 =>
            obtain ⟨u2, h2⟩ := p2
            simp only [skipsDoc]
            rw [getFileHash_indexStep_ne st u0 h0 _ u2.sourcePath
              (fun e => hnotin (e ▸ mem_parsedPaths_of_mem docs u2 h2 hd2))]
        rw [hcong]
        simp

/-- C3 counterexample: a run whose only document fails to parse and a
run whose only document is skipped by the ledger hash comparison
return identical counters - indexed 0, skipped 1, chunks 0, deleted 0
in both - so the two kinds of skip are not distinguishable in the
returned counters; there is one shared skipped counter. -/
theorem skip_kinds_indistinct :
    (ingest 800 100 [none] ⟨[], [], []⟩ false).2 =
      (ingest 800 100 [some (⟨"U1", "kb/a.md", [], "body text"⟩, "h1")]
        ⟨[("kb/a.md", "h1")], [("U1", "kb/a.md")], [("U1:body:0", "U1")]⟩ false).2 ∧
    (ingest 800 100 [none] ⟨[], [], []⟩ false).2 = ⟨0, 1, 0, 0⟩ := by decide

/-- C3 amended: parse-failure skips and content-unchanged (ledger hash
match) skips are both counted, but in the one shared skipped counter
of the {indexed, skipped, chunks, deleted} summary: an unforced run's
skipped count is the number of documents that either fail to parse or
hash-match the ledger; the counters do not distinguish the two kinds. -/
theorem skip_counter_merged (cs ov : Nat) (docs : List (Option (ParsedUnit × String)))
    (st : Store) (hnd : (parsedPaths docs).Nodup) :
    (ingest cs ov docs st false).2.skipped = docs.countP (skipsDoc st) := by
  unfold ingest
  rcases hip : ingestPass false cs ov docs st ⟨0, 0, 0, 0⟩ [] with ⟨st1, c1, proc1⟩
  have hsk := ingestPass_skipped cs ov docs st ⟨0, 0, 0, 0⟩ [] hnd
  rw [hip] at hsk
  rcases hpp : prunePass st1 proc1 with ⟨st2, dd⟩
  simpa using hsk

/-- Witness for the amended C3 theorem: one parse failure plus one
hash-matched document yield skipped = 2. -/
theorem skip_counter_merged_witness :
    (ingest 800 100 [none, some (⟨"U1", "kb/a.md", [], "body text"⟩, "h1")]
      ⟨[("kb/a.md", "h1")], [], []⟩ false).2.skipped =
      [none, some (⟨"U1", "kb/a.md", [], "body text"⟩, "h1")].countP
        (skipsDoc ⟨[("kb/a.md", "h1")], [], []⟩) :=
  skip_counter_merged 800 100 [none, some (⟨"U1", "kb/a.md", [], "body text"⟩, "h1")]
    ⟨[("kb/a.md", "h1")], [], []⟩ (by decide)

/-- C7: running ingest twice with force = false on an unchanged
document set yields indexed = 0 and deleted = 0 on the second run -
after the first run the ledger hash of every parsed document matches,
so every document is skipped, and every ledger path survived the first
pruning pass only if it was processed, so nothing is pruned.  Distinct
parsed source paths are assumed, as distinct files have distinct
repository-relative paths. -/
theorem ingest_unchanged_idempotent (cs ov : Nat)
    (docs : List (Option (ParsedUnit × String))) (st : Store)
    (hnd : (parsedPaths docs).Nodup) :
    (ingest cs ov docs (ingest cs ov docs st false).1 false).2.indexed = 0 ∧
    (ingest cs ov docs (ingest cs ov docs st false).1 false).2.deleted = 0 := by
  rcases hip : ingestPass false cs ov docs st ⟨0, 0, 0, 0⟩ [] with ⟨stp, c1, proc1⟩
  have hproc : proc1 = parsedPaths docs := by
    have h2 := ingestPass_processed cs ov false docs st ⟨0, 0, 0, 0⟩ []
    rw [hip] at h2
    simpa using h2
  have hhash1 : ∀ u h, some (u, h) ∈ docs → getFileHash stp u.sourcePath = some h := by
    intro u h hm
    have h2 := ingestPass_getFileHash_parsed cs ov docs st ⟨0, 0, 0, 0⟩ [] hnd u h hm
    rw [hip] at h2
    exact h2
  rcases hpp : prunePass stp proc1 with ⟨st1, d1⟩
  have hrun1 : (ingest cs ov docs st false).1 = st1 := by
    unfold ingest
    rw [hip]
    show (match prunePass stp proc1 with
      | (st2, d) => (st2, { c1 with deleted := c1.deleted + d })).1 = st1
    rw [hpp]
  have hhash2 : ∀ u h, some (u, h) ∈ docs → getFileHash st1 u.sourcePath = some h := by
    intro u h hm
    have h2 := prunePass_getFileHash_mem stp proc1 u.sourcePath
      (by rw [hproc]; exact mem_parsedPaths_of_mem docs u h hm)
    rw [hpp] at h2
    exact h2.trans (hhash1 u h hm)
  have hknown : ∀ q, q ∈ listKnownFiles st1 → q ∈ parsedPaths docs := by
    intro q hq
    have h2 := prunePass_known stp proc1 q (by rw [hpp]; exact hq)
    rwa [hproc] at h2
  rw [hrun1]
  unfold ingest
  rcases hip2 : ingestPass false cs ov docs st1 ⟨0, 0, 0, 0⟩ [] with ⟨stq, c2, proc2⟩
  have hall := ingestPass_all_match cs ov docs st1 ⟨0, 0, 0, 0⟩ [] hhash2
  rw [hip2] at hall
  obtain ⟨hstq0, hidx, hdel⟩ := hall
  have hstq : stq = st1 := hstq0
  have hproc2 : proc2 = parsedPaths docs := by
    have h2 := ingestPass_processed cs ov false docs st1 ⟨0, 0, 0, 0⟩ []
    rw [hip2] at h2
    simpa using h2
  have hprune2 : prunePass stq proc2 = (stq, 0) := by
    apply prunePass_all_processed
    intro q hq
    rw [hproc2]
    apply hknown
    rw [hstq] at hq
    exact hq
  show ((match prunePass stq proc2 with
    | (st2, d) => (st2, { c2 with deleted := c2.deleted + d })) : Store × Counters).2.indexed = 0 ∧
    ((match prunePass stq proc2 with
    | (st2, d) => (st2, { c2 with deleted := c2.deleted + d })) : Store × Counters).2.deleted = 0
  rw [hprune2]
  constructor
  · simpa using hidx
  · simpa using hdel

/-- Witness for the C7 theorem: a one-document corpus ingested into an
empty store and re-ingested. -/
theorem ingest_unchanged_idempotent_witness :
    (ingest 800 100 [some (⟨"U1", "kb/a.md", [], "body text"⟩, "h1")]
      (ingest 800 100 [some (⟨"U1", "kb/a.md", [], "body text"⟩, "h1")]
        ⟨[], [], []⟩ false).1 false).2.indexed = 0 ∧
    (ingest 800 100 [some (⟨"U1", "kb/a.md", [], "body text"⟩, "h1")]
      (ingest 800 100 [some (⟨"U1", "kb/a.md", [], "body text"⟩, "h1")]
        ⟨[], [], []⟩ false).1 false).2.deleted = 0 :=
  ingest_unchanged_idempotent 800 100 [some (⟨"U1", "kb/a.md", [], "body text"⟩, "h1")]
    ⟨[], [], []⟩ (by decide)

/- ### fusion claims -/

/-- A stage list holding the chunk at rank 1 contributes at least 1/51
to its fused score. -/
theorem rrf_stage_lower (l : List RetrievalChunk) (c : String)
    (h : ∃ rc ∈ l, rc.chunk.chunkId = c ∧ rc.rank = 1) :
    (1 : ℚ) / 51 ≤
      ((l.filter (fun rc => rc.chunk.chunkId == c)).map
        (fun rc => 1 / (50 + (rc.rank : ℚ)))).sum := by
  obtain ⟨rc1, hm, hid, hr⟩ := h
  have hmem : rc1 ∈ l.filter (fun rc => rc.chunk.chunkId == c) :=
    List.mem_filter.mpr ⟨hm, by simp [hid]⟩
  have hmem2 : (1 : ℚ) / (50 + (rc1.rank : ℚ)) ∈
      (l.filter (fun rc => rc.chunk.chunkId == c)).map
        (fun rc => 1 / (50 + (rc.rank : ℚ))) :=
    List.mem_map_of_mem _ hmem
  have hval : (1 : ℚ) / (50 + (rc1.rank : ℚ)) = 1 / 51 := by rw [hr]; norm_num
  have hnn : ∀ x ∈ (l.filter (fun rc => rc.chunk.chunkId == c)).map
      (fun rc => 1 / (50 + (rc.rank : ℚ))), 0 ≤ x := by
    intro x hx
    obtain ⟨rc2, _, rfl⟩ := List.mem_map.mp hx
    positivity
  calc (1 : ℚ) / 51 = 1 / (50 + (rc1.rank : ℚ)) := hval.symm
    _ ≤ _ := List.single_le_sum hnn _ hmem2

/-- The fused score splits into the three per-stage sums. -/
theorem fusionScore_split (l1 l2 l3 : List RetrievalChunk) (cid : String) :
    fusionScore [l1, l2, l3] cid =
      ((l1.filter (fun rc => rc.chunk.chunkId == cid)).map
        (fun rc => 1 / (50 + (rc.rank : ℚ)))).sum +
      (((l2.filter (fun rc => rc.chunk.chunkId == cid)).map
        (fun rc => 1 / (50 + (rc.rank : ℚ)))).sum +
       ((l3.filter (fun rc => rc.chunk.chunkId == cid)).map
        (fun rc => 1 / (50 + (rc.rank : ℚ)))).sum) := by
  unfold fusionScore
  simp [List.filter_append, List.map_append, List.sum_append]

/-- C6: reciprocal rank fusion gives a chunk id the score
(sum over its occurrences of 1/(50 + rank)) scaled by 100, absent
lists contributing nothing, so a chunk at rank 1 in all three stage
lists scores at least as high as a chunk occurring exactly once across
the stages, at any rank. -/
theorem fusion_rank1_dominates (l1 l2 l3 : List RetrievalChunk) (c d : String)
    (h1 : ∃ rc ∈ l1, rc.chunk.chunkId = c ∧ rc.rank = 1)
    (h2 : ∃ rc ∈ l2, rc.chunk.chunkId = c ∧ rc.rank = 1)
    (h3 : ∃ rc ∈ l3, rc.chunk.chunkId = c ∧ rc.rank = 1)
    (hd : ∃ rd, (l1 ++ l2 ++ l3).filter (fun rc => rc.chunk.chunkId == d) = [rd]) :
    fusionScore [l1, l2, l3] d * 100 ≤ fusionScore [l1, l2, l3] c * 100 := by
  obtain ⟨rd, hd⟩ := hd
  have hds : fusionScore [l1, l2, l3] d = 1 / (50 + (rd.rank : ℚ)) := by
    unfold fusionScore
    have hflat : ([l1, l2, l3] : List (List RetrievalChunk)).flatten = l1 ++ l2 ++ l3 := by
      simp [List.append_assoc]
    rw [hflat, hd]
    simp
  have hdle : fusionScore [l1, l2, l3] d ≤ 1 / 50 := by
    rw [hds]
    apply one_div_le_one_div_of_le
    · norm_num
    · have hnn : (0 : ℚ) ≤ (rd.rank : ℚ) := Nat.cast_nonneg _
      linarith
  have hcge : 3 * ((1 : ℚ) / 51) ≤ fusionScore [l1, l2, l3] c := by
    rw [fusionScore_split]
    have g1 := rrf_stage_lower l1 c h1
    have g2 := rrf_stage_lower l2 c h2
    have g3 := rrf_stage_lower l3 c h3
    linarith
  have hdc : fusionScore [l1, l2, l3] d ≤ fusionScore [l1, l2, l3] c := by
    have hmid : (1 : ℚ) / 50 ≤ 3 * (1 / 51) := by norm_num
    linarith
  exact mul_le_mul_of_nonneg_right hdc (by norm_num)

/-- Witness for the C6 theorem: c at rank 1 in all three lists, d once
in the first list at rank 2. -/
theorem fusion_rank1_dominates_witness :
    fusionScore [[rrfChunk "c" 1, rrfChunk "d" 2], [rrfChunk "c" 1], [rrfChunk "c" 1]] "d" * 100 ≤
      fusionScore [[rrfChunk "c" 1, rrfChunk "d" 2], [rrfChunk "c" 1], [rrfChunk "c" 1]] "c" *
        100 :=
  fusion_rank1_dominates [rrfChunk "c" 1, rrfChunk "d" 2] [rrfChunk "c" 1] [rrfChunk "c" 1]
    "c" "d"
    ⟨rrfChunk "c" 1, by simp, rfl, rfl⟩
    ⟨rrfChunk "c" 1, by simp, rfl, rfl⟩
    ⟨rrfChunk "c" 1, by simp, rfl, rfl⟩
    ⟨rrfChunk "d" 2, by with_unfolding_all decide⟩

/- ### lexical and scoping claims -/

/-- Anatomy of a chunk returned by the lexical result loop: positive
BM25 score, in scope, and its rank is its 1-based position in the
sorted, top-N-truncated pre-filter list. -/
theorem lexRanked_mem (scored : List (KChunk × ℚ)) (allowed : List String)
    (rc : RetrievalChunk) (hm : rc ∈ lexRanked scored allowed) :
    0 < rc.score ∧ matchesScope rc.chunk.unitId allowed = true ∧
      scored[rc.rank - 1]? = some (rc.chunk, rc.score) := by
  unfold lexRanked at hm
  obtain ⟨iq, hmem, hf⟩ := List.mem_filterMap.mp hm
  obtain ⟨i, q⟩ := iq
  by_cases h0 : q.2 ≤ 0
  · rw [if_pos h0] at hf; cases hf
  · rw [if_neg h0] at hf
    by_cases hb : (!matchesScope q.1.unitId allowed) = true
    · rw [if_pos hb] at hf; cases hf
    · rw [if_neg hb] at hf
      have hrc : rc = ⟨q.1, q.2, i + 1, "lexical"⟩ := (Option.some.inj hf).symm
      subst hrc
      refine ⟨lt_of_not_le h0, ?_, ?_⟩
      · cases hms : matchesScope q.1.unitId allowed with
        | true => rfl
        | false => exact absurd (by rw [hms]; rfl) hb
      · show scored[i + 1 - 1]? = some (q.1, q.2)
        rw [Nat.add_sub_cancel]
        exact List.mk_mem_enum_iff_getElem?.mp hmem

/-- C9: every chunk returned by LexicalIndex.search carries a strictly
positive BM25 score, and its rank field is its 1-based position in the
sorted pre-filter window - so the returned ranks can be
non-contiguous and need not start at 1, as the closed instance with a
scope-filtered rank-1 chunk shows (its result ranks are [2]). -/
theorem lexical_positive_and_ranked :
    (∀ (lex : LexIndex) (getScores : List String → List ℚ) (query : String)
       (topN : Nat) (allowed : List String) (rc : RetrievalChunk),
       rc ∈ lexSearch lex getScores query topN allowed →
       0 < rc.score ∧
       (lexScored lex (getScores (simpleTokenize query)) topN)[rc.rank - 1]? =
         some (rc.chunk, rc.score)) ∧
    ((lexSearch ⟨[⟨"FIN-9:b:0", "FIN-9", "kb/f.md", "body", "t1"⟩,
        ⟨"HR-9:b:0", "HR-9", "kb/h.md", "body", "t2"⟩]⟩
      (fun _ => [2, 1]) "q" 8 ["HR-"]).map (fun rc => rc.rank) = [2]) := by
  constructor
  · intro lex getScores query topN allowed rc hm
    unfold lexSearch at hm
    split at hm
    · exact absurd hm (List.not_mem_nil _)
    · have h2 := lexRanked_mem _ allowed rc hm
      exact ⟨h2.1, h2.2.2⟩
  · with_unfolding_all decide

/-- Witness for the C9 theorem at the two-chunk instance. -/
theorem lexical_positive_and_ranked_witness :
    0 < (⟨⟨"HR-9:b:0", "HR-9", "kb/h.md", "body", "t2"⟩, 1, 2, "lexical"⟩ :
      RetrievalChunk).score ∧
    (lexScored ⟨[⟨"FIN-9:b:0", "FIN-9", "kb/f.md", "body", "t1"⟩,
        ⟨"HR-9:b:0", "HR-9", "kb/h.md", "body", "t2"⟩]⟩
      ((fun _ => [(2 : ℚ), 1]) (simpleTokenize "q")) 8)[
        (⟨⟨"HR-9:b:0", "HR-9", "kb/h.md", "body", "t2"⟩, 1, 2, "lexical"⟩ :
          RetrievalChunk).rank - 1]? =
      some ((⟨⟨"HR-9:b:0", "HR-9", "kb/h.md", "body", "t2"⟩, 1, 2, "lexical"⟩ :
          RetrievalChunk).chunk,
        (⟨⟨"HR-9:b:0", "HR-9", "kb/h.md", "body", "t2"⟩, 1, 2, "lexical"⟩ :
          RetrievalChunk).score) :=
  lexical_positive_and_ranked.1
    ⟨[⟨"FIN-9:b:0", "FIN-9", "kb/f.md", "body", "t1"⟩,
      ⟨"HR-9:b:0", "HR-9", "kb/h.md", "body", "t2"⟩]⟩
    (fun _ => [2, 1]) "q" 8 ["HR-"]
    ⟨⟨"HR-9:b:0", "HR-9", "kb/h.md", "body", "t2"⟩, 1, 2, "lexical"⟩
    (by with_unfolding_all decide)

/-- C1 counterexample: with allowed_id_prefixes = ["HR-"], a query
whose only hit comes from the graph stage returns a chunk owned by
unit FIN-1, whose id does not start with "HR-": the graph stage list
is not filtered (retrieve does not pass the allow-list to
KnowledgeGraph.search, which has no such parameter), and the fused
score 100/51 clears the default 0.15 threshold. -/
theorem scope_leak_graph :
    ((retrieve ⟨[]⟩ (fun _ => []) (fun _ _ => []) finGraph (fun _ _ => none)
        defaultRetrievalSettings "finance" none ["HR-"]).selectedChunks.map
      (fun rc => rc.chunk.unitId) = ["FIN-1"]) ∧
    ("FIN-1".startsWith "HR-" = false) := by with_unfolding_all decide

/-- C1 amended: the lexical and vector stage result lists are filtered
to chunks whose owning unit id passes the allow-list before fusion;
the graph stage list is not filtered, so a returned chunk that entered
through the graph stage can have an owning unit id outside the given
prefixes (see the counterexample). -/
theorem scope_filters_lexical_and_vector :
    (∀ (lex : LexIndex) (getScores : List String → List ℚ) (query : String)
       (topN : Nat) (allowed : List String) (rc : RetrievalChunk),
       rc ∈ lexSearch lex getScores query topN allowed →
       matchesScope rc.chunk.unitId allowed = true) ∧
    (∀ (lex : LexIndex) (items : List VectorItem) (allowed : List String)
       (rc : RetrievalChunk),
       rc ∈ vectorSearch lex items allowed →
       matchesScope rc.chunk.unitId allowed = true) := by
  constructor
  · intro lex getScores query topN allowed rc hm
    unfold lexSearch at hm
    split at hm
    · exact absurd hm (List.not_mem_nil _)
    · exact (lexRanked_mem _ allowed rc hm).2.1
  · intro lex items allowed rc hm
    unfold vectorSearch at hm
    obtain ⟨ip, hmem, hf⟩ := List.mem_filterMap.mp hm
    simp only at hf
    generalize hch : (match lex.chunks.find? (fun c => c.chunkId == ip.2.chunkId) with
      | some c => c
      | none => ⟨ip.2.chunkId, ip.2.unitId, ip.2.sourcePath, ip.2.sectionName,
          ip.2.document⟩) = ch at hf
    by_cases hb : (!matchesScope ch.unitId allowed) = true
    · rw [if_pos hb] at hf; cases hf
    · rw [if_neg hb] at hf
      have hrc : rc = ⟨ch, 1 / (1 + ip.2.distance), ip.1 + 1, "vector"⟩ :=
        (Option.some.inj hf).symm
      subst hrc
      cases hms : matchesScope ch.unitId allowed with
      | true => rfl
      | false => exact absurd (by rw [hms]; rfl) hb

/-- Witness for the amended C1 theorem: a returned lexical chunk from
the two-chunk instance is in scope. -/
theorem scope_filters_lexical_and_vector_witness :
    matchesScope (⟨⟨"HR-9:b:0", "HR-9", "kb/h.md", "body", "t2"⟩, 1, 2, "lexical"⟩ :
      RetrievalChunk).chunk.unitId ["HR-"] = true :=
  scope_filters_lexical_and_vector.1
    ⟨[⟨"FIN-9:b:0", "FIN-9", "kb/f.md", "body", "t1"⟩,
      ⟨"HR-9:b:0", "HR-9", "kb/h.md", "body", "t2"⟩]⟩
    (fun _ => [2, 1]) "q" 8 ["HR-"]
    ⟨⟨"HR-9:b:0", "HR-9", "kb/h.md", "body", "t2"⟩, 1, 2, "lexical"⟩
    (by with_unfolding_all decide)

/- ### empty-corpus retrieval claims -/

/-- A fold whose step ignores its input is the identity. -/
theorem foldl_id {α β : Type} (l : List β) (f : α → β → α) (h : ∀ a b, f a b = a) :
    ∀ init, l.foldl f init = init := by
  induction l with
  | nil => intro init; rfl
  | cons b l ih => intro init; rw [List.foldl_cons, h init b]; exact ih init

/-- With no units there are no function-term matches and the seen set
is unchanged. -/
theorem matchFunctions_empty (tokens : List String) (seen : List String) :
    matchFunctions emptyGraph tokens seen = ([], seen) := by
  unfold matchFunctions
  exact foldl_id tokens _ (fun a t => by split <;> rfl) ([], seen)

/-- KnowledgeGraph.search on an empty corpus returns no chunks, for
every query. -/
theorem graphSearch_empty (query : String) (topN : Nat) :
    graphSearch emptyGraph query topN = [] := by
  simp only [graphSearch]
  split
  · rfl
  · split
    · rfl
    · have hcon : matchContacts emptyGraph (tokenizeSet query) = [] := rfl
      have hext : extendRanked topN [] ([] : List RetrievalChunk) = ([], false) := rfl
      have hmu : matchUnits emptyGraph (tokenizeSet query) [] = [] := rfl
      simp only [hcon, List.take_nil, hext, List.map_nil, matchFunctions_empty, hmu]

/-- C8: retrieve represents a no-match condition as an empty result,
not an error.  Against an empty corpus (no chunk rows, no graph rows,
and hence an empty vector collection, taken as the hypothesis on the
external vector query) every query returns selected_chunks = [] and a
debug trace whose keys lexical, vector, graph and fused are all
present and map to empty lists (the threshold key carries the applied
threshold).  And in general, whenever no fused chunk reaches the
threshold, selected_chunks is empty. -/
theorem retrieve_no_match_empty :
    (∀ (getScores : List String → List ℚ)
       (vectorQuery : String → Nat → List VectorItem)
       (predict : String → List String → Option (List ℚ))
       (settings : RetrievalSettings) (query : String)
       (override : Option ℚ) (allowed : List String),
       vectorQuery (normalizeQuery query) settings.topNVector = [] →
       retrieve ⟨[]⟩ getScores vectorQuery emptyGraph predict settings query override allowed =
         { query := query, selectedChunks := [],
           debug := [("lexical", []), ("vector", []), ("graph", []), ("fused", [])],
           thresholdUsed := override.getD settings.minScoreThreshold }) ∧
    (∀ (lex : LexIndex) (getScores : List String → List ℚ)
       (vectorQuery : String → Nat → List VectorItem) (g : GraphState)
       (predict : String → List String → Option (List ℚ))
       (settings : RetrievalSettings) (query : String)
       (override : Option ℚ) (allowed : List String),
       (∀ rc ∈ retrieveFused lex getScores vectorQuery g predict settings
          (normalizeQuery query) allowed,
          rc.score < override.getD settings.minScoreThreshold) →
       (retrieve lex getScores vectorQuery g predict settings query override
         allowed).selectedChunks = []) := by
  constructor
  · intro getScores vectorQuery predict settings query override allowed hv
    simp only [retrieve, retrieveFused]
    rw [hv, graphSearch_empty]
    rfl
  · intro lex getScores vectorQuery g predict settings query override allowed hall
    simp only [retrieve]
    have hfil : (retrieveFused lex getScores vectorQuery g predict settings
        (normalizeQuery query) allowed).filter
          (fun c => override.getD settings.minScoreThreshold ≤ c.score) = [] := by
      rw [List.filter_eq_nil_iff]
      intro rc hrc
      simp only [decide_eq_true_eq]
      exact not_le.mpr (hall rc hrc)
    rw [hfil]
    rfl

/-- Witness for the C8 theorem at a concrete empty-corpus retrieval. -/
theorem retrieve_no_match_empty_witness :
    retrieve ⟨[]⟩ (fun _ => []) (fun _ _ => []) emptyGraph (fun _ _ => none)
        defaultRetrievalSettings "what is knowledge management" none [] =
      { query := "what is knowledge management", selectedChunks := [],
        debug := [("lexical", []), ("vector", []), ("graph", []), ("fused", [])],
        thresholdUsed := (15 : ℚ) / 100 } :=
  retrieve_no_match_empty.1 (fun _ => []) (fun _ _ => []) (fun _ _ => none)
    defaultRetrievalSettings "what is knowledge management" none [] rfl
